import Mathlib

/-
Verification development for the flashcard quiz-integrity core.

Shallow embedding conventions:
- Python strings that flow through the token protocol are modelled as byte
  lists (List Nat, every element < 256).  The colon delimiter is byte 58.
- The HMAC-SHA256 hexdigest is modelled as an explicit function parameter
  (mac : Bytes -> Bytes -> Bytes); the theorems only use that it is a
  deterministic function whose output is colon-free hex text, which is true
  of hexdigest output.
- base64.urlsafe_b64encode / urlsafe_b64decode are implemented over byte
  lists.  Decoding is Option-valued: none models binascii raising, which the
  source catches and turns into (None, False).
- Database tables are modelled as association lists inside a DBState record;
  SQL INSERT OR IGNORE / INSERT OR REPLACE / UPDATE statements become the
  corresponding pure list transformations.
- Real-valued TF-IDF arithmetic uses Mathlib reals (Real.log, Real.sqrt),
  the exact mathematical semantics of the floating point source.
-/

/-- Byte strings: Python str or bytes values seen as their byte content. -/
abbrev Bytes := List Nat

/-- Encoding table of the urlsafe base64 alphabet, as byte values. -/
def encChar (v : Nat) : Nat :=
  if v < 26 then 65 + v
  else if v < 52 then 97 + (v - 26)
  else if v < 62 then 48 + (v - 52)
  else if v = 62 then 45
  else 95

/-- Decoding table: accepts both the standard and the urlsafe alphabet, as
Python urlsafe_b64decode does after its translate step. -/
def decChar (c : Nat) : Option Nat :=
  if 65 ≤ c ∧ c ≤ 90 then some (c - 65)
  else if 97 ≤ c ∧ c ≤ 122 then some (c - 97 + 26)
  else if 48 ≤ c ∧ c ≤ 57 then some (c - 48 + 52)
  else if c = 43 ∨ c = 45 then some 62
  else if c = 47 ∨ c = 95 then some 63
  else none

/-- Characters kept by the lenient base64 decoder (alphabet plus padding);
everything else is discarded before decoding, as in binascii. -/
def b64Keep (c : Nat) : Bool := (decChar c).isSome || c = 61

/-- base64url encoding of a byte list, 3 bytes to 4 characters with '='
padding (byte 61), as produced by base64.urlsafe_b64encode. -/
def b64Encode : Bytes → Bytes
  | b1 :: b2 :: b3 :: rest =>
      encChar (b1 / 4) :: encChar (b1 % 4 * 16 + b2 / 16) ::
      encChar (b2 % 16 * 4 + b3 / 64) :: encChar (b3 % 64) :: b64Encode rest
  | [b1, b2] => [encChar (b1 / 4), encChar (b1 % 4 * 16 + b2 / 16), encChar (b2 % 16 * 4), 61]
  | [b1] => [encChar (b1 / 4), encChar (b1 % 4 * 16), 61, 61]
  | [] => []

/-- Decode a run of base64 quads; padding is only legal at the very end. -/
def b64DecodeQuads : Bytes → Option Bytes
  | c1 :: c2 :: c3 :: c4 :: rest =>
      match decChar c1, decChar c2 with
      | some v1, some v2 =>
          if c3 = 61 then
            if c4 = 61 ∧ rest = [] then some [v1 * 4 + v2 / 16] else none
          else
            match decChar c3 with
            | some v3 =>
                if c4 = 61 then
                  if rest = [] then some [v1 * 4 + v2 / 16, v2 % 16 * 16 + v3 / 4] else none
                else
                  match decChar c4 with
                  | some v4 =>
                      (b64DecodeQuads rest).map
                        (fun t => (v1 * 4 + v2 / 16) :: (v2 % 16 * 16 + v3 / 4) ::
                                  (v3 % 4 * 64 + v4) :: t)
                  | none => none
            | none => none
      | _, _ => none
  | [] => some []
  | _ => none

/-- base64url decoding: discard foreign characters, then require a multiple
of four and decode quad by quad.  none models binascii.Error. -/
def b64Decode (s : Bytes) : Option Bytes :=
  let cs := s.filter b64Keep
  if cs.length % 4 = 0 then b64DecodeQuads cs else none

/-- Python str.split on a colon (byte 58): every occurrence splits, empty
fields are kept, and the result is never the empty list. -/
def splitColon : Bytes → List Bytes
  | [] => [[]]
  | c :: rest =>
      if c = 58 then [] :: splitColon rest
      else
        match splitColon rest with
        | [] => [[c]]
        | h :: t => (c :: h) :: t

/-- Decimal rendering worker; the fuel argument only drives structural
recursion and is always sufficient at the call site below. -/
def natDecBytesAux : Nat → Nat → Bytes
  | 0, _ => []
  | fuel + 1, n =>
      if n < 10 then [48 + n] else natDecBytesAux fuel (n / 10) ++ [48 + n % 10]

/-- Decimal digit bytes of a natural number, the byte content of the
Python f-string rendering of a nonnegative int. -/
def natDecBytes (n : Nat) : Bytes := natDecBytesAux (n + 1) n

/-- Source utils/security.py generate_signed_token: payload is
question_id : user_id : timestamp, the mac of the payload is appended after
one more colon, and the whole line is base64url encoded. -/
def generate_signed_token (mac : Bytes → Bytes → Bytes) (secret : Bytes)
    (question_id user_id : Bytes) (timestamp : Nat) : Bytes :=
  let payload := question_id ++ [58] ++ user_id ++ [58] ++ natDecBytes timestamp
  b64Encode (payload ++ [58] ++ mac secret payload)

/-- Source utils/security.py verify_signed_token: decode, split on colons
into exactly four fields, compare the caller user with the embedded user,
recompute the mac over the recovered payload and compare; any failure gives
(none, false).  The disabled expiry check of the source is not modelled. -/
def verify_signed_token (mac : Bytes → Bytes → Bytes) (secret : Bytes)
    (token user_id : Bytes) : Option Bytes × Bool :=
  match b64Decode token with
  | none => (none, false)
  | some decoded =>
      match splitColon decoded with
      | [question_id, token_user_id, timestamp, signature] =>
          if user_id ≠ token_user_id then (none, false)
          else if signature ≠ mac secret (question_id ++ [58] ++ token_user_id ++ [58] ++ timestamp)
            then (none, false)
          else (some question_id, true)
      | _ => (none, false)

/-- Source flashcardsite.py line 955: INSERT OR IGNORE INTO used_tokens,
the replay-guard marking operation (insert if absent). -/
def mark_redeemed (used : List (Bytes × Bytes)) (user_id token : Bytes) :
    List (Bytes × Bytes) :=
  if (user_id, token) ∈ used then used else used ++ [(user_id, token)]

/-- Replay-guard read: the pair is recorded. -/
def is_redeemed (used : List (Bytes × Bytes)) (user_id token : Bytes) : Prop :=
  (user_id, token) ∈ used

/-- Source models/supabase_adapter.py lines 492-495: a plain INSERT into
used_tokens with no conflict handling, modelled as an unconditional append
(the row is stored again if the pair is already present). -/
def used_tokens_plain_insert (used : List (Bytes × Bytes)) (user_id token : Bytes) :
    List (Bytes × Bytes) :=
  used ++ [(user_id, token)]

/-- Per-module statistics row (module_stats table). -/
structure MStat where
  answered : Nat
  correct : Nat
  lastTime : Nat
  streak : Nat
deriving DecidableEq

/-- Per-user statistics row (user_stats table). -/
structure UStat where
  correct : Nat
  total : Nat
  lastTime : Nat
  streak : Nat
deriving DecidableEq

/-- Database state reached through the persistence collaborator: the
used_tokens replay store, the questions table (id to answer and module id),
and both statistics tables. -/
structure DBState where
  usedTokens : List (Bytes × Bytes)
  questions : List (Bytes × (Bytes × Bytes))
  userStats : List (Bytes × UStat)
  moduleStats : List ((Bytes × Bytes) × MStat)
deriving DecidableEq

/-- Association-list lookup, first match wins (SELECT ... WHERE key = ?). -/
def lookupA {κ β : Type} [DecidableEq κ] : List (κ × β) → κ → Option β
  | [], _ => none
  | p :: rest, k => if p.1 = k then some p.2 else lookupA rest k

/-- Source flashcardsite.py lines 937-949: INSERT OR REPLACE INTO
module_stats with COALESCE arithmetic; an existing row is bumped, a missing
row starts at one answered. -/
def upsertModuleStat (ms : List ((Bytes × Bytes) × MStat)) (k : Bytes × Bytes)
    (isCorrect : Bool) (now : Nat) : List ((Bytes × Bytes) × MStat) :=
  match lookupA ms k with
  | some cur =>
      ms.map (fun p => if p.1 = k then
        (k, ⟨cur.answered + 1, cur.correct + (if isCorrect then 1 else 0), now,
             if isCorrect then cur.streak + 1 else 0⟩) else p)
  | none => ms ++ [(k, ⟨1, if isCorrect then 1 else 0, now, if isCorrect then 1 else 0⟩)]

/-- SELECT SUM(number_correct) FROM module_stats WHERE user_id = ?. -/
def sumModCorrect (ms : List ((Bytes × Bytes) × MStat)) (u : Bytes) : Nat :=
  ((ms.filter (fun p => decide (p.1.1 = u))).map (fun p => p.2.correct)).sum

/-- SELECT SUM(number_answered) FROM module_stats WHERE user_id = ?. -/
def sumModAnswered (ms : List ((Bytes × Bytes) × MStat)) (u : Bytes) : Nat :=
  ((ms.filter (fun p => decide (p.1.1 = u))).map (fun p => p.2.answered)).sum

/-- Source flashcardsite.py lines 960-966: UPDATE user_stats from the sums
over the fresh module_stats rows; an absent row stays absent (UPDATE touches
zero rows). -/
def updateUserStats (us : List (Bytes × UStat)) (msNew : List ((Bytes × Bytes) × MStat))
    (u : Bytes) (isCorrect : Bool) (now : Nat) : List (Bytes × UStat) :=
  us.map (fun p => if p.1 = u then
    (u, ⟨sumModCorrect msNew u, sumModAnswered msNew u, now,
         if isCorrect then p.2.streak + 1 else 0⟩) else p)

/-- Outcome of a grading request, the JSON responses of check_answer. -/
inductive CheckResp where
  | missing
  | alreadyUsed
  | invalidToken
  | notFound
  | graded (correct : Bool)
deriving DecidableEq

/-- Source flashcardsite.py check_answer (lines 893-969): reject a missing
token or answer, reject an already used (user, token) pair before touching
any table, verify the signed token, look the question up, compare the
submitted answer text, update statistics, and record the token in
used_tokens only when the submission is correct. -/
def check_answer (mac : Bytes → Bytes → Bytes) (secret : Bytes) (st : DBState)
    (user_id token submitted : Bytes) (now : Nat) : CheckResp × DBState :=
  if token = [] ∨ submitted = [] then (.missing, st)
  else if (user_id, token) ∈ st.usedTokens then (.alreadyUsed, st)
  else
    match verify_signed_token mac secret token user_id with
    | (some question_id, true) =>
        match lookupA st.questions question_id with
        | some (answer, module_id) =>
            let isCorrect : Bool := decide (submitted = answer)
            let ms2 := upsertModuleStat st.moduleStats (user_id, module_id) isCorrect now
            let used2 := if isCorrect then mark_redeemed st.usedTokens user_id token
                         else st.usedTokens
            (.graded isCorrect,
             { st with usedTokens := used2, moduleStats := ms2,
                       userStats := updateUserStats st.userStats ms2 user_id isCorrect now })
        | none => (.notFound, st)
    | (_, _) => (.invalidToken, st)

/-- Punctuation characters stripped by the vectorizer, from the source
string of models/question.py line 410. -/
def punctChars : List Char :=
  ['.', ',', '?', '!', ';', ':', '(', ')', '[', ']',
   Char.ofNat 123, Char.ofNat 125, Char.ofNat 34, Char.ofNat 34, Char.ofNat 39]

/-- Fixed stop-word set of models/question.py lines 400-403. -/
def stopWords : List (List Char) :=
  ["the", "a", "an", "in", "on", "at", "to", "for", "with", "by", "about",
   "as", "of", "and", "or", "is", "are", "was", "were", "be", "been", "being",
   "have", "has", "had", "do", "does", "did", "what", "when", "where", "why",
   "how", "which", "who", "whom", "this", "that", "these", "those"].map String.toList

/-- Lowercase the text and turn every punctuation character into a space. -/
def normalizeText (s : List Char) : List Char :=
  (s.map Char.toLower).map (fun c => if c ∈ punctChars then ' ' else c)

/-- Whitespace split accumulator; tokens are collected in reverse. -/
def splitWsAux : List Char → List Char → List (List Char)
  | [], acc => if acc = [] then [] else [acc.reverse]
  | c :: rest, acc =>
      if c.isWhitespace then
        if acc = [] then splitWsAux rest [] else acc.reverse :: splitWsAux rest []
      else splitWsAux rest (c :: acc)

/-- Python str.split with no argument: split on whitespace runs, dropping
empty pieces. -/
def splitWs (s : List Char) : List (List Char) := splitWsAux s []

/-- Words of a document after lowercasing and punctuation stripping. -/
def rawTokens (doc : List Char) : List (List Char) := splitWs (normalizeText doc)

/-- Source models/question.py lines 405-420: drop stop words and words of
length at most two, keep only words of length at least four, truncated to
their first six characters. -/
def preprocessDoc (doc : List Char) : List (List Char) :=
  let tokens := (rawTokens doc).filter
    (fun w => decide (w ∉ stopWords) && decide (2 < w.length))
  (tokens.filter (fun w => decide (3 < w.length))).map (fun w => w.take 6)

/-- Token lists: a processed document is a list of stemmed terms. -/
abbrev TokList := List (List Char)

/-- Global vocabulary: every term occurring in some processed document,
the set union built in models/question.py lines 424-431. -/
def allTerms (docsP : List TokList) : TokList := docsP.flatten.dedup

/-- Document frequency: number of documents containing the term. -/
def dfOf (docsP : List TokList) (t : List Char) : Nat :=
  (docsP.filter (fun d => decide (t ∈ d))).length

/-- Inverse document frequency with the smoothing denominator of line 436:
log of N over (1 + df). -/
noncomputable def idfOf (docsP : List TokList) (t : List Char) : ℝ :=
  Real.log ((docsP.length : ℝ) / (1 + (dfOf docsP t : ℝ)))

/-- TF-IDF weight of a term in a document: raw count over document length
(length zero treated as one) times the idf, lines 441-449. -/
noncomputable def tfidfW (docsP : List TokList) (d : TokList) (t : List Char) : ℝ :=
  ((d.count t : ℝ) / (max d.length 1 : ℝ)) * idfOf docsP t

/-- Sum of a real-valued function over a list. -/
noncomputable def sumOver {α : Type} (l : List α) (f : α → ℝ) : ℝ := (l.map f).sum

/-- Euclidean norm of the TF-IDF vector of a document over the global
vocabulary, lines 453 and 462. -/
noncomputable def magOf (docsP : List TokList) (d : TokList) : ℝ :=
  Real.sqrt (sumOver (allTerms docsP) (fun t => tfidfW docsP d t ^ 2))

/-- Dot product of two document TF-IDF vectors over the vocabulary. -/
noncomputable def dotOf (docsP : List TokList) (d e : TokList) : ℝ :=
  sumOver (allTerms docsP) (fun t => tfidfW docsP d t * tfidfW docsP e t)

/-- Cosine similarity with the zero guard of lines 465-467: zero whenever
either norm is not positive. -/
noncomputable def cosSim (docsP : List TokList) (d e : TokList) : ℝ :=
  if 0 < magOf docsP d ∧ 0 < magOf docsP e then
    dotOf docsP d e / (magOf docsP d * magOf docsP e)
  else 0

/-- Corpus question row as returned by the corpus reader. -/
structure QRow where
  id : String
  question : String
  answer : String
deriving DecidableEq, Inhabited

/-- Duplicate match returned by find_semantic_duplicates. -/
structure DupMatch where
  id : String
  question : String
  answer : String
  similarity : ℝ

/-- Processed document list: every corpus question text, then the query
text appended last (models/question.py lines 392-396). -/
def corpusDocsP (corpus : List QRow) (query : String) : List TokList :=
  corpus.map (fun q => preprocessDoc q.question.toList) ++ [preprocessDoc query.toList]

/-- Similarity of the query against every corpus document, tagged with the
corpus iteration index (lines 455-469). -/
noncomputable def simList (corpus : List QRow) (query : String) : List (Nat × ℝ) :=
  (List.range corpus.length).map
    (fun i => (i, cosSim (corpusDocsP corpus query) (preprocessDoc query.toList)
                         ((corpusDocsP corpus query).getD i [])))

/-- Descending-score comparison used to model the stable Python sort with
reverse=True on the similarity key. -/
def simRel (a b : Nat × ℝ) : Prop := b.2 ≤ a.2

noncomputable instance : DecidableRel simRel := fun a b => inferInstanceAs (Decidable (b.2 ≤ a.2))

instance : IsTotal (Nat × ℝ) simRel := ⟨fun a b => le_total b.2 a.2⟩

instance : IsTrans (Nat × ℝ) simRel := ⟨fun _ _ _ h1 h2 => le_trans h2 h1⟩

/-- Top matches: similarities sorted by descending score (stable), cut to
the limit (line 472). -/
noncomputable def topMatches (corpus : List QRow) (query : String) (lim : Nat) :
    List (Nat × ℝ) :=
  (List.insertionSort simRel (simList corpus query)).take lim

/-- Entries of the truncated ranking that clear the threshold
(lines 474-476). -/
noncomputable def fsdSelected (corpus : List QRow) (query : String) (lim : Nat)
    (threshold : ℝ) : List (Nat × ℝ) :=
  (topMatches corpus query lim).filter (fun p => decide (threshold ≤ p.2))

/-- Source models/question.py find_semantic_duplicates: empty corpus gives
an empty result, otherwise the selected (index, score) pairs are resolved
against the corpus rows (lines 471-485). -/
noncomputable def find_semantic_duplicates (corpus : List QRow) (query : String)
    (lim : Nat) (threshold : ℝ) : List DupMatch :=
  if corpus = [] then []
  else (fsdSelected corpus query lim threshold).map
    (fun p => ⟨(corpus.getD p.1 default).id, (corpus.getD p.1 default).question,
               (corpus.getD p.1 default).answer, p.2⟩)

/-- Size of the intersection of two Python sets built from lists: distinct
elements of the first list that also occur in the second. -/
def dedupInter (xs ys : List String) : Nat :=
  ((xs.dedup).filter (fun x => decide (x ∈ ys))).length

/-- Source routes/main.py lines 32-72: topic overlap is worth three per
shared topic, subtopic two, tag one, plus a bonus of two for any shared
topic and one for any shared subtopic. -/
def calculate_distractor_similarity_score
    (curTopics curSubtopics curTags dTopics dSubtopics dTags : List String) : Nat :=
  let topicOverlap := dedupInter curTopics dTopics
  let subtopicOverlap := dedupInter curSubtopics dSubtopics
  let tagOverlap := dedupInter curTags dTags
  topicOverlap * 3 + subtopicOverlap * 2 + tagOverlap * 1 +
    (if 0 < topicOverlap then 2 else 0) + (if 0 < subtopicOverlap then 1 else 0)

/-- Source flashcardsite.py lines 633-637: shared tags weigh three, shared
subtopics two, shared topics one, nothing else. -/
def flashcard_distractor_score
    (qTags qSubtopics qTopics cTags cSubtopics cTopics : List String) : Nat :=
  dedupInter qTags cTags * 3 + dedupInter qSubtopics cSubtopics * 2 +
    dedupInter qTopics cTopics

/-- Distractor candidate: question id and answer text. -/
abbrev Cand := String × String

/-- Source flashcardsite.py lines 625-629: candidates with an empty answer
or the correct answer text are dropped before scoring. -/
def buildScored (correct : String) (cands : List Cand) : List Cand :=
  cands.filter (fun c => decide (c.2 ≠ "") && decide (c.2 ≠ correct))

/-- Source flashcardsite.py lines 652-660: walk the ranked candidates,
skip answers already used, stop at the wanted count; returns the chosen
answers and the final used set. -/
def phase1 : List Cand → List String → List String → Nat → List String × List String
  | [], sel, used, _ => (sel, used)
  | c :: rest, sel, used, dn =>
      if dn ≤ sel.length then (sel, used)
      else if c.2 ∈ used then phase1 rest sel used dn
      else phase1 rest (sel ++ [c.2]) (c.2 :: used) dn

/-- Source flashcardsite.py lines 666-671: backfill loop, which appends
without rechecking the used set. -/
def backfillLoop : List Cand → List String → List String → Nat → List String × List String
  | [], sel, used, _ => (sel, used)
  | c :: rest, sel, used, dn =>
      if dn ≤ sel.length then (sel, used)
      else backfillLoop rest (sel ++ [c.2]) (c.2 :: used) dn

/-- Source flashcardsite.py line 664: candidates still unused and non-empty
after the ranked phase. -/
def flashRemaining (cands : List Cand) (used : List String) : List Cand :=
  cands.filter (fun c => decide (c.2 ∉ used) && decide (c.2 ≠ ""))

/-- Distractor answers chosen by the flashcardsite.py selector; sorted1 is
the shuffled-then-ranked candidate list and rem1 the shuffled backfill list,
both supplied as permutations by the caller theorems. -/
def flashSelect (correct : String) (sorted1 rem1 : List Cand) (dn : Nat) : List String :=
  (backfillLoop rem1 (phase1 sorted1 [] [correct] dn).1
    (phase1 sorted1 [] [correct] dn).2 dn).1

/-- Question taxonomy metadata triple: topics, subtopics, tags. -/
abbrev Meta := List String × List String × List String

/-- Score of a candidate in routes/main.py lines 214-227, from the bulk
metadata of the current question and of the candidate. -/
def mainScore (curMeta : Meta) (metaOf : String → Meta) (c : Cand) : Nat :=
  calculate_distractor_similarity_score curMeta.1 curMeta.2.1 curMeta.2.2
    (metaOf c.1).1 (metaOf c.1).2.1 (metaOf c.1).2.2

/-- Descending comparison on the attached numeric score. -/
def descNat (a b : Cand × Nat) : Prop := b.2 ≤ a.2

instance : DecidableRel descNat := fun a b => inferInstanceAs (Decidable (b.2 ≤ a.2))

instance : IsTotal (Cand × Nat) descNat := ⟨fun a b => le_total b.2 a.2⟩

instance : IsTrans (Cand × Nat) descNat := ⟨fun _ _ _ h1 h2 => le_trans h2 h1⟩

/-- Source routes/main.py lines 212-231: score every candidate, stable-sort
by descending score, take the number still needed. -/
def mainBestDistractors (curMeta : Meta) (metaOf : String → Meta)
    (cands : List Cand) (needed : Nat) : List Cand :=
  ((List.insertionSort descNat (cands.map (fun c => (c, mainScore curMeta metaOf c)))).take
    needed).map (fun p => p.1)

/-- Distractor answer texts appended by the scored path of routes/main.py
lines 233-238: no answer-text filtering happens here. -/
def mainScoredDistractorTexts (curMeta : Meta) (metaOf : String → Meta)
    (cands : List Cand) (needed : Nat) : List String :=
  (mainBestDistractors curMeta metaOf cands needed).map (fun p => p.2)

/-- Manual distractor loop of routes/main.py lines 186-191: append while
the answer list has not passed the configured count. -/
def addManual (answers manual : List String) (n : Nat) : List String :=
  manual.foldl (fun acc d => if acc.length ≤ n then acc ++ [d] else acc) answers

/-- Answer list assembled by the unfiltered deal path of routes/main.py
lines 179-258 before the final shuffle (a permutation, irrelevant to
membership and multiplicity): correct answer first, manual distractors,
scored distractors, then the empty-text filter and its fallback. -/
def mainDealAnswers (correct : String) (manual : List String) (curMeta : Meta)
    (metaOf : String → Meta) (cands : List Cand) (numDistractors : Nat) : List String :=
  let withManual := addManual [correct] manual numDistractors
  let needed := numDistractors + 1 - withManual.length
  let answers := withManual ++ mainScoredDistractorTexts curMeta metaOf cands needed
  let valid := answers.filter (fun a => a.toList.any (fun ch => !ch.isWhitespace))
  if valid = [] then [correct] else valid

/-- Byte strings proper: every element is an actual byte. -/
abbrev ByteStr (s : Bytes) : Prop := ∀ b ∈ s, b < 256

/-- Abstract interface satisfied by hmac.new(k, m, sha256).hexdigest(): a
deterministic function whose output is colon-free byte text (hex digits
never contain the delimiter). -/
def MacHexLike (mac : Bytes → Bytes → Bytes) : Prop :=
  ∀ k m : Bytes, 58 ∉ mac k m ∧ ByteStr (mac k m)

theorem b64Keep_encChar : ∀ v : Nat, v < 64 → b64Keep (encChar v) = true := by decide

theorem decChar_encChar : ∀ v : Nat, v < 64 → decChar (encChar v) = some v := by decide

theorem encChar_ne_pad : ∀ v : Nat, v < 64 → encChar v ≠ 61 := by decide

theorem b64Encode_keep : ∀ l : Bytes, (∀ b ∈ l, b < 256) → ∀ c ∈ b64Encode l, b64Keep c = true
  | [], _ => by simp [b64Encode]
  | [b1], h => by
      have hb1 : b1 < 256 := h b1 (by simp)
      simp only [b64Encode, List.mem_cons, List.not_mem_nil, or_false]
      rintro c (rfl | rfl | rfl | rfl)
      · exact b64Keep_encChar _ (by omega)
      · exact b64Keep_encChar _ (by omega)
      · rfl
      · rfl
  | [b1, b2], h => by
      have hb1 : b1 < 256 := h b1 (by simp)
      have hb2 : b2 < 256 := h b2 (by simp)
      simp only [b64Encode, List.mem_cons, List.not_mem_nil, or_false]
      rintro c (rfl | rfl | rfl | rfl)
      · exact b64Keep_encChar _ (by omega)
      · exact b64Keep_encChar _ (by omega)
      · exact b64Keep_encChar _ (by omega)
      · rfl
  | b1 :: b2 :: b3 :: (rest1 :: rest2), h => by
      have hb1 : b1 < 256 := h b1 (by simp)
      have hb2 : b2 < 256 := h b2 (by simp)
      have hb3 : b3 < 256 := h b3 (by simp)
      have ih := b64Encode_keep (rest1 :: rest2) (fun b hb => h b (by simp [hb]))
      simp only [b64Encode, List.mem_cons]
      rintro c (rfl | rfl | rfl | rfl | hc)
      · exact b64Keep_encChar _ (by omega)
      · exact b64Keep_encChar _ (by omega)
      · exact b64Keep_encChar _ (by omega)
      · exact b64Keep_encChar _ (by omega)
      · exact ih c hc
  | [b1, b2, b3], h => by
      have hb1 : b1 < 256 := h b1 (by simp)
      have hb2 : b2 < 256 := h b2 (by simp)
      have hb3 : b3 < 256 := h b3 (by simp)
      simp only [b64Encode, List.mem_cons, List.not_mem_nil, or_false]
      rintro c (rfl | rfl | rfl | rfl)
      · exact b64Keep_encChar _ (by omega)
      · exact b64Keep_encChar _ (by omega)
      · exact b64Keep_encChar _ (by omega)
      · exact b64Keep_encChar _ (by omega)

theorem b64Encode_length : ∀ l : Bytes, (b64Encode l).length % 4 = 0
  | [] => by simp [b64Encode]
  | [_] => by simp [b64Encode]
  | [_, _] => by simp [b64Encode]
  | _ :: _ :: _ :: (r1 :: r2) => by
      have ih := b64Encode_length (r1 :: r2)
      simp only [b64Encode, List.length_cons]
      omega
  | [_, _, _] => by simp [b64Encode]

theorem b64DecodeQuads_encode :
    ∀ l : Bytes, (∀ b ∈ l, b < 256) → b64DecodeQuads (b64Encode l) = some l
  | [], _ => by simp [b64Encode, b64DecodeQuads]
  | [b1], h => by
      have hb1 : b1 < 256 := h b1 (by simp)
      simp only [b64Encode, b64DecodeQuads,
        decChar_encChar (b1 / 4) (by omega),
        decChar_encChar (b1 % 4 * 16) (by omega)]
      simp
      all_goals omega
  | [b1, b2], h => by
      have hb1 : b1 < 256 := h b1 (by simp)
      have hb2 : b2 < 256 := h b2 (by simp)
      simp only [b64Encode, b64DecodeQuads,
        decChar_encChar (b1 / 4) (by omega),
        decChar_encChar (b1 % 4 * 16 + b2 / 16) (by omega),
        decChar_encChar (b2 % 16 * 4) (by omega)]
      simp [if_neg (encChar_ne_pad (b2 % 16 * 4) (by omega))]
      all_goals omega
  | b1 :: b2 :: b3 :: (r1 :: r2), h => by
      have hb1 : b1 < 256 := h b1 (by simp)
      have hb2 : b2 < 256 := h b2 (by simp)
      have hb3 : b3 < 256 := h b3 (by simp)
      have ih := b64DecodeQuads_encode (r1 :: r2) (fun b hb => h b (by simp [hb]))
      simp only [b64Encode, b64DecodeQuads,
        decChar_encChar (b1 / 4) (by omega),
        decChar_encChar (b1 % 4 * 16 + b2 / 16) (by omega),
        decChar_encChar (b2 % 16 * 4 + b3 / 64) (by omega),
        decChar_encChar (b3 % 64) (by omega)]
      simp [if_neg (encChar_ne_pad (b2 % 16 * 4 + b3 / 64) (by omega)),
            if_neg (encChar_ne_pad (b3 % 64) (by omega)), ih]
      all_goals omega
  | [b1, b2, b3], h => by
      have hb1 : b1 < 256 := h b1 (by simp)
      have hb2 : b2 < 256 := h b2 (by simp)
      have hb3 : b3 < 256 := h b3 (by simp)
      simp only [b64Encode, b64DecodeQuads,
        decChar_encChar (b1 / 4) (by omega),
        decChar_encChar (b1 % 4 * 16 + b2 / 16) (by omega),
        decChar_encChar (b2 % 16 * 4 + b3 / 64) (by omega),
        decChar_encChar (b3 % 64) (by omega)]
      simp [if_neg (encChar_ne_pad (b2 % 16 * 4 + b3 / 64) (by omega)),
            if_neg (encChar_ne_pad (b3 % 64) (by omega)), b64DecodeQuads]
      all_goals omega

theorem b64_roundtrip (l : Bytes) (h : ∀ b ∈ l, b < 256) :
    b64Decode (b64Encode l) = some l := by
  unfold b64Decode
  rw [List.filter_eq_self.mpr (b64Encode_keep l h), if_pos (b64Encode_length l)]
  exact b64DecodeQuads_encode l h

theorem splitColon_ne_nil : ∀ l : Bytes, splitColon l ≠ []
  | [] => by simp [splitColon]
  | c :: rest => by
      have ih := splitColon_ne_nil rest
      unfold splitColon
      split
      · simp
      · cases hr : splitColon rest with
        | nil => exact absurd hr ih
        | cons h t => simp

theorem splitColon_no_colon : ∀ l : Bytes, 58 ∉ l → splitColon l = [l]
  | [], _ => rfl
  | c :: rest, h => by
      have hc : c ≠ 58 := fun hc => h (by simp [hc])
      have ih := splitColon_no_colon rest (fun hr => h (by simp [hr]))
      unfold splitColon
      rw [if_neg hc, ih]

theorem splitColon_append : ∀ (xs rest : Bytes), 58 ∉ xs →
    splitColon (xs ++ 58 :: rest) = xs :: splitColon rest
  | [], rest, _ => by simp [splitColon]
  | x :: xs, rest, h => by
      have hx : x ≠ 58 := fun hx => h (by simp [hx])
      have ih := splitColon_append xs rest (fun hr => h (by simp [hr]))
      simp only [List.cons_append]
      rw [splitColon, if_neg hx, ih]

theorem natDecBytesAux_digits : ∀ (fuel n : Nat), ∀ b ∈ natDecBytesAux fuel n,
    48 ≤ b ∧ b ≤ 57
  | 0, n => by simp [natDecBytesAux]
  | fuel + 1, n => by
      intro b hb
      unfold natDecBytesAux at hb
      split at hb
      · simp only [List.mem_singleton] at hb
        omega
      · rw [List.mem_append] at hb
        rcases hb with hb | hb
        · exact natDecBytesAux_digits fuel (n / 10) b hb
        · simp only [List.mem_singleton] at hb
          omega

theorem natDecBytes_digits (n : Nat) : ∀ b ∈ natDecBytes n, 48 ≤ b ∧ b ≤ 57 :=
  natDecBytesAux_digits (n + 1) n

theorem splitColon_payload (q u ts sig : Bytes)
    (hq : 58 ∉ q) (hu : 58 ∉ u) (hts : 58 ∉ ts) (hsig : 58 ∉ sig) :
    splitColon (q ++ [58] ++ u ++ [58] ++ ts ++ [58] ++ sig) = [q, u, ts, sig] := by
  have e : q ++ [58] ++ u ++ [58] ++ ts ++ [58] ++ sig =
      q ++ 58 :: (u ++ 58 :: (ts ++ 58 :: sig)) := by
    simp [List.append_assoc]
  rw [e, splitColon_append q _ hq, splitColon_append u _ hu,
      splitColon_append ts _ hts, splitColon_no_colon sig hsig]

theorem natDecBytes_no_colon (n : Nat) : 58 ∉ natDecBytes n := by
  intro h
  have := natDecBytes_digits n 58 h
  omega

theorem natDecBytes_bytes (n : Nat) : ByteStr (natDecBytes n) := by
  intro b hb
  have := natDecBytes_digits n b hb
  omega

theorem byteStr_append {a b : Bytes} (ha : ByteStr a) (hb : ByteStr b) :
    ByteStr (a ++ b) := by
  intro x hx
  rcases List.mem_append.mp hx with h | h
  · exact ha x h
  · exact hb x h

/-- C2: verifying a freshly issued signed token with the same user succeeds
and returns exactly the embedded question id with ok true, for every
question id and user id free of the colon delimiter, under any fixed
signing secret and any hexdigest-like mac. -/
theorem token_round_trip (mac : Bytes → Bytes → Bytes) (secret q u : Bytes) (ts : Nat)
    (hmac : MacHexLike mac) (hq : 58 ∉ q) (hqB : ByteStr q)
    (hu : 58 ∉ u) (huB : ByteStr u) :
    verify_signed_token mac secret (generate_signed_token mac secret q u ts) u
      = (some q, true) := by
  have hsig := hmac secret (q ++ [58] ++ u ++ [58] ++ natDecBytes ts)
  have h58 : ByteStr [58] := by decide
  have hbytes : ByteStr (q ++ [58] ++ u ++ [58] ++ natDecBytes ts ++ [58]
      ++ mac secret (q ++ [58] ++ u ++ [58] ++ natDecBytes ts)) :=
    byteStr_append (byteStr_append (byteStr_append (byteStr_append (byteStr_append
      hqB h58) huB) h58) (natDecBytes_bytes ts)) h58 |> (fun h => byteStr_append h hsig.2)
  have hdec := b64_roundtrip _ hbytes
  have hsplit := splitColon_payload q u (natDecBytes ts)
    (mac secret (q ++ [58] ++ u ++ [58] ++ natDecBytes ts))
    hq hu (natDecBytes_no_colon ts) hsig.1
  unfold generate_signed_token verify_signed_token
  simp only [hdec, hsplit]
  simp

/-- Witness for the C2 theorem at a concrete mac, secret, question and
user. -/
theorem token_round_trip_witness :
    verify_signed_token (fun _ _ => [97, 98]) []
      (generate_signed_token (fun _ _ => [97, 98]) [] [113] [117] 7) [117]
      = (some [113], true) := by
  have hm : MacHexLike (fun _ _ => [97, 98]) := by
    intro k m
    show 58 ∉ [97, 98] ∧ ByteStr [97, 98]
    exact ⟨by decide, by decide⟩
  exact token_round_trip (fun _ _ => [97, 98]) [] [113] [117] 7 hm
    (by decide) (by decide) (by decide) (by decide)

/-- C8: a signed token issued for one user fails verification when checked
with any other user identity; the embedded-user comparison rejects before
any signature check, so this holds for every hexdigest-like mac. -/
theorem token_user_binding (mac : Bytes → Bytes → Bytes) (secret q u1 u2 : Bytes)
    (ts : Nat) (hmac : MacHexLike mac) (hq : 58 ∉ q) (hqB : ByteStr q)
    (hu : 58 ∉ u1) (huB : ByteStr u1) (hne : u2 ≠ u1) :
    verify_signed_token mac secret (generate_signed_token mac secret q u1 ts) u2
      = (none, false) := by
  have hsig := hmac secret (q ++ [58] ++ u1 ++ [58] ++ natDecBytes ts)
  have h58 : ByteStr [58] := by decide
  have hbytes : ByteStr (q ++ [58] ++ u1 ++ [58] ++ natDecBytes ts ++ [58]
      ++ mac secret (q ++ [58] ++ u1 ++ [58] ++ natDecBytes ts)) :=
    byteStr_append (byteStr_append (byteStr_append (byteStr_append (byteStr_append
      hqB h58) huB) h58) (natDecBytes_bytes ts)) h58 |> (fun h => byteStr_append h hsig.2)
  have hdec := b64_roundtrip _ hbytes
  have hsplit := splitColon_payload q u1 (natDecBytes ts)
    (mac secret (q ++ [58] ++ u1 ++ [58] ++ natDecBytes ts))
    hq hu (natDecBytes_no_colon ts) hsig.1
  unfold generate_signed_token verify_signed_token
  simp only [hdec, hsplit]
  simp [hne]

/-- Witness for the C8 theorem: a token for one concrete user checked with
a different concrete user. -/
theorem token_user_binding_witness :
    verify_signed_token (fun _ _ => [97, 98]) []
      (generate_signed_token (fun _ _ => [97, 98]) [] [113] [117] 7) [119]
      = (none, false) := by
  have hm : MacHexLike (fun _ _ => [97, 98]) := by
    intro k m
    show 58 ∉ [97, 98] ∧ ByteStr [97, 98]
    exact ⟨by decide, by decide⟩
  exact token_user_binding (fun _ _ => [97, 98]) [] [113] [117] [119] 7 hm
    (by decide) (by decide) (by decide) (by decide) (by decide)

/-- C10: token verification is total in the embedding and returns
(none, false) on every failure: an undecodable token, a decoded payload
that does not split into exactly four colon fields, an embedded user
different from the caller, or a signature that does not match the
recomputed mac; in every case the result is either (none, false) or
(some question_id, true). -/
theorem verify_token_total (mac : Bytes → Bytes → Bytes) (secret token u : Bytes) :
    (b64Decode token = none → verify_signed_token mac secret token u = (none, false)) ∧
    (∀ d, b64Decode token = some d → (splitColon d).length ≠ 4 →
      verify_signed_token mac secret token u = (none, false)) ∧
    (∀ d q tu ts sig, b64Decode token = some d → splitColon d = [q, tu, ts, sig] →
      tu ≠ u → verify_signed_token mac secret token u = (none, false)) ∧
    (∀ d q tu ts sig, b64Decode token = some d → splitColon d = [q, tu, ts, sig] →
      sig ≠ mac secret (q ++ [58] ++ tu ++ [58] ++ ts) →
      verify_signed_token mac secret token u = (none, false)) ∧
    (verify_signed_token mac secret token u = (none, false) ∨
      ∃ q, verify_signed_token mac secret token u = (some q, true)) := by
  refine ⟨?_, ?_, ?_, ?_, ?_⟩
  · intro h
    unfold verify_signed_token
    rw [h]
  · intro d hd hlen
    unfold verify_signed_token
    simp only [hd]
    rcases hs : splitColon d with _ | ⟨a, _ | ⟨b, _ | ⟨c, _ | ⟨e, _ | ⟨f, g⟩⟩⟩⟩⟩
    · simp [hs]
    · simp [hs]
    · simp [hs]
    · simp [hs]
    · exact absurd (by rw [hs]; rfl) hlen
    · simp [hs]
  · intro d q tu ts sig hd hs hne
    unfold verify_signed_token
    simp only [hd, hs]
    simp [Ne.symm hne]
  · intro d q tu ts sig hd hs hsig
    unfold verify_signed_token
    simp only [hd, hs]
    by_cases hu2 : u = tu
    · have hsig2 : ¬sig = mac secret (q ++ 58 :: (tu ++ 58 :: ts)) := by
        simpa using hsig
      simp [hu2, hsig2]
    · simp [hu2]
  · unfold verify_signed_token
    cases hd : b64Decode token with
    | none => exact Or.inl (by simp)
    | some d =>
        simp only []
        rcases hs : splitColon d with _ | ⟨a, _ | ⟨b, _ | ⟨c, _ | ⟨e, _ | ⟨f, g⟩⟩⟩⟩⟩
        · exact Or.inl (by simp [hs])
        · exact Or.inl (by simp [hs])
        · exact Or.inl (by simp [hs])
        · exact Or.inl (by simp [hs])
        · by_cases hu2 : u = b
          · by_cases hsg : e = mac secret (a ++ 58 :: (b ++ 58 :: c))
            · exact Or.inr ⟨a, by simp [hs, hu2, hsg]⟩
            · exact Or.inl (by simp [hs, hu2, hsg])
          · exact Or.inl (by simp [hs, hu2])
        · exact Or.inl (by simp [hs])

/-- Witness for the C10 theorem: concrete tokens hitting each failure
branch of verification. -/
theorem verify_token_total_witness :
    verify_signed_token (fun _ _ => [97, 98]) [] [65] [117] = (none, false) ∧
    verify_signed_token (fun _ _ => [97, 98]) [] [65, 65, 65, 65] [117] = (none, false) ∧
    verify_signed_token (fun _ _ => [97, 98]) []
      (b64Encode [113, 58, 117, 58, 53, 58, 99]) [119] = (none, false) ∧
    verify_signed_token (fun _ _ => [97, 98]) []
      (b64Encode [113, 58, 117, 58, 53, 58, 99]) [117] = (none, false) ∧
    (verify_signed_token (fun _ _ => [97, 98]) [] [65] [117] = (none, false) ∨
      ∃ q, verify_signed_token (fun _ _ => [97, 98]) [] [65] [117] = (some q, true)) := by
  refine ⟨?_, ?_, ?_, ?_, ?_⟩
  · exact (verify_token_total (fun _ _ => [97, 98]) [] [65] [117]).1 (by decide)
  · exact (verify_token_total (fun _ _ => [97, 98]) [] [65, 65, 65, 65] [117]).2.1
      [0, 0, 0] (by decide) (by decide)
  · exact (verify_token_total (fun _ _ => [97, 98]) []
      (b64Encode [113, 58, 117, 58, 53, 58, 99]) [119]).2.2.1
      [113, 58, 117, 58, 53, 58, 99] [113] [117] [53] [99]
      (by decide) (by decide) (by decide)
  · exact (verify_token_total (fun _ _ => [97, 98]) []
      (b64Encode [113, 58, 117, 58, 53, 58, 99]) [117]).2.2.2.1
      [113, 58, 117, 58, 53, 58, 99] [113] [117] [53] [99]
      (by decide) (by decide) (by decide)
  · exact (verify_token_total (fun _ _ => [97, 98]) [] [65] [117]).2.2.2.2

/-- C7 counterexample: the plain Supabase insert is not a no-op on a second
marking of the same pair; the pair ends up stored twice. -/
theorem used_tokens_plain_insert_not_noop :
    used_tokens_plain_insert (used_tokens_plain_insert [] [117] [116]) [117] [116] ≠
      used_tokens_plain_insert [] [117] [116] ∧
    (used_tokens_plain_insert (used_tokens_plain_insert [] [117] [116]) [117] [116]).count
      ([117], [116]) = 2 := by
  constructor
  · decide
  · decide

/-- C7 as amended: the SQLite INSERT OR IGNORE marking is idempotent, a
second marking of the same pair changes nothing, and the pair reads as
redeemed afterwards. -/
theorem mark_redeemed_idempotent (used : List (Bytes × Bytes)) (u tok : Bytes) :
    mark_redeemed (mark_redeemed used u tok) u tok = mark_redeemed used u tok ∧
    is_redeemed (mark_redeemed used u tok) u tok := by
  unfold mark_redeemed is_redeemed
  by_cases h : (u, tok) ∈ used
  · simp [h]
  · simp [h]

/-- C3 counterexample: one shared topic and nothing else scores five in
routes/main.py (three for the topic plus the any-topic bonus of two), while
the claimed formula, three per shared tag plus two per shared subtopic plus
one per shared topic, gives one. -/
theorem distractor_score_counterexample :
    calculate_distractor_similarity_score ["t"] [] [] ["t"] [] [] = 5 ∧
    3 * dedupInter [] [] + 2 * dedupInter [] [] + 1 * dedupInter ["t"] ["t"] = 1 ∧
    calculate_distractor_similarity_score ["t"] [] [] ["t"] [] [] ≠
      3 * dedupInter [] [] + 2 * dedupInter [] [] + 1 * dedupInter ["t"] ["t"] := by
  refine ⟨by decide, by decide, by decide⟩

theorem dedupInter_card (xs ys : List String) :
    dedupInter xs ys = (xs.toFinset ∩ ys.toFinset).card := by
  unfold dedupInter
  rw [← List.toFinset_card_of_nodup ((xs.nodup_dedup).filter _)]
  congr 1
  rw [List.toFinset_filter]
  rw [show xs.dedup.toFinset = xs.toFinset from List.toFinset.ext_iff.mpr (fun x => by simp)]
  rw [← Finset.filter_mem_eq_inter]
  apply Finset.filter_congr
  intro x _
  simp

/-- C3 as amended: the flashcardsite.py score is exactly three per shared
tag plus two per shared subtopic plus one per shared topic, while the
routes/main.py score weighs topics three, subtopics two, tags one and adds
a bonus of two when any topic is shared and one when any subtopic is
shared. -/
theorem distractor_score_characterization
    (ct cs ctg dt ds dtg : List String) :
    flashcard_distractor_score ctg cs ct dtg ds dt =
      3 * (ctg.toFinset ∩ dtg.toFinset).card + 2 * (cs.toFinset ∩ ds.toFinset).card +
        (ct.toFinset ∩ dt.toFinset).card ∧
    calculate_distractor_similarity_score ct cs ctg dt ds dtg =
      3 * (ct.toFinset ∩ dt.toFinset).card + 2 * (cs.toFinset ∩ ds.toFinset).card +
        (ctg.toFinset ∩ dtg.toFinset).card +
        (if 0 < (ct.toFinset ∩ dt.toFinset).card then 2 else 0) +
        (if 0 < (cs.toFinset ∩ ds.toFinset).card then 1 else 0) := by
  unfold flashcard_distractor_score calculate_distractor_similarity_score
  simp only [dedupInter_card]
  constructor
  · ring
  · by_cases h1 : 0 < (ct.toFinset ∩ dt.toFinset).card <;>
      by_cases h2 : 0 < (cs.toFinset ∩ ds.toFinset).card <;>
      simp [h1, h2] <;> ring

/-- C5 counterexample: the word cat is not a stop word and has exactly
three characters, yet the vectorizer output for the text cat is empty, so
a three-character token is removed rather than retained. -/
theorem preprocess_three_char_counterexample :
    String.toList "cat" ∉ stopWords ∧ (String.toList "cat").length = 3 ∧
    preprocessDoc (String.toList "cat") = [] := by
  refine ⟨by decide, by decide, by decide⟩

/-- C5 as amended: a term appears in the vectorizer output exactly when it
is the six-character truncation of a non-stop-word token of length at least
four; in particular tokens of length at most three (not only at most two)
are removed. -/
theorem preprocess_membership (doc w : List Char) :
    w ∈ preprocessDoc doc ↔
      ∃ t, t ∈ rawTokens doc ∧ t ∉ stopWords ∧ 3 < t.length ∧ w = t.take 6 := by
  unfold preprocessDoc
  simp only [List.mem_map, List.mem_filter, Bool.and_eq_true, decide_eq_true_eq]
  constructor
  · rintro ⟨t, ⟨⟨htRaw, hstop, h2⟩, h3⟩, rfl⟩
    exact ⟨t, htRaw, hstop, h3, rfl⟩
  · rintro ⟨t, htRaw, hstop, h3, rfl⟩
    exact ⟨t, ⟨⟨htRaw, hstop, by omega⟩, h3⟩, rfl⟩

/-- C4 counterexample: in the routes/main.py deal path a same-module
candidate whose answer text equals the correct answer of the target is
selected as a distractor; the distractor text list contains the target
answer and the dealt answer list repeats it. -/
theorem main_deal_duplicate_counterexample :
    mainScoredDistractorTexts ([], [], []) (fun _ => ([], [], [])) [("q3", "4")] 3
      = ["4"] ∧
    mainDealAnswers "4" [] ([], [], []) (fun _ => ([], [], [])) [("q3", "4")] 3
      = ["4", "4"] := by
  refine ⟨by decide, by decide⟩

theorem phase1_used_mono : ∀ (cands : List Cand) (sel used : List String) (dn : Nat)
    (a : String), a ∈ used → a ∈ (phase1 cands sel used dn).2
  | [], _, _, _, _, h => h
  | c :: rest, sel, used, dn, a, h => by
      unfold phase1
      by_cases hdn : dn ≤ sel.length
      · rw [if_pos hdn]
        exact h
      · rw [if_neg hdn]
        by_cases hc : c.2 ∈ used
        · rw [if_pos hc]
          exact phase1_used_mono rest sel used dn a h
        · rw [if_neg hc]
          exact phase1_used_mono rest (sel ++ [c.2]) (c.2 :: used) dn a
            (List.mem_cons_of_mem _ h)

theorem phase1_invariant : ∀ (cands : List Cand) (sel used : List String) (dn : Nat),
    sel.Nodup → (∀ a ∈ sel, a ∈ used) →
    (phase1 cands sel used dn).1.Nodup ∧
    (∀ a ∈ (phase1 cands sel used dn).1, a ∈ (phase1 cands sel used dn).2) ∧
    (∀ a ∈ (phase1 cands sel used dn).1, a ∈ sel ∨ a ∉ used)
  | [], sel, used, dn, h1, h2 => ⟨h1, h2, fun a ha => Or.inl ha⟩
  | c :: rest, sel, used, dn, h1, h2 => by
      unfold phase1
      by_cases hdn : dn ≤ sel.length
      · rw [if_pos hdn]
        exact ⟨h1, h2, fun a ha => Or.inl ha⟩
      · rw [if_neg hdn]
        by_cases hc : c.2 ∈ used
        · rw [if_pos hc]
          exact phase1_invariant rest sel used dn h1 h2
        · rw [if_neg hc]
          have hcsel : c.2 ∉ sel := fun hs => hc (h2 c.2 hs)
          have h1n : (sel ++ [c.2]).Nodup := by
            simp [List.nodup_append, h1, hcsel]
          have h2n : ∀ a ∈ sel ++ [c.2], a ∈ c.2 :: used := by
            intro a ha
            rcases List.mem_append.mp ha with ha | ha
            · exact List.mem_cons_of_mem _ (h2 a ha)
            · simp only [List.mem_singleton] at ha
              simp [ha]
          obtain ⟨r1, r2, r4⟩ := phase1_invariant rest (sel ++ [c.2]) (c.2 :: used) dn h1n h2n
          refine ⟨r1, r2, fun a ha => ?_⟩
          rcases r4 a ha with h | h
          · rcases List.mem_append.mp h with h | h
            · exact Or.inl h
            · simp only [List.mem_singleton] at h
              subst h
              exact Or.inr hc
          · exact Or.inr (fun hu => h (List.mem_cons_of_mem _ hu))

theorem phase1_exhaust : ∀ (cands : List Cand) (sel used : List String) (dn : Nat),
    (phase1 cands sel used dn).1.length < dn →
    ∀ c ∈ cands, c.2 ∈ (phase1 cands sel used dn).2
  | [], _, _, _, _, c, hc => absurd hc (List.not_mem_nil c)
  | c0 :: rest, sel, used, dn, hlen, c, hc => by
      have hne := hlen
      unfold phase1 at hne ⊢
      by_cases hdn : dn ≤ sel.length
      · rw [if_pos hdn] at hne ⊢
        dsimp only at hne
        omega
      · rw [if_neg hdn] at hne ⊢
        by_cases hcu : c0.2 ∈ used
        · rw [if_pos hcu] at hne ⊢
          rcases List.mem_cons.mp hc with rfl | hc
          · exact phase1_used_mono rest sel used dn c.2 hcu
          · exact phase1_exhaust rest sel used dn hne c hc
        · rw [if_neg hcu] at hne ⊢
          rcases List.mem_cons.mp hc with rfl | hc
          · exact phase1_used_mono rest (sel ++ [c.2]) (c.2 :: used) dn c.2 (by simp)
          · exact phase1_exhaust rest (sel ++ [c0.2]) (c0.2 :: used) dn hne c hc

theorem backfillLoop_of_full (rem : List Cand) (sel used : List String) (dn : Nat)
    (h : dn ≤ sel.length) : backfillLoop rem sel used dn = (sel, used) := by
  cases rem with
  | nil => rfl
  | cons c rest =>
      unfold backfillLoop
      rw [if_pos h]

/-- C4 as amended: the flashcardsite.py selector does satisfy distractor
exclusivity: for every correct answer, candidate list and count, and every
shuffle outcome (any permutation of the ranked candidates and of the
backfill list), the chosen distractor answers are pairwise distinct and
never contain the correct answer; the routes/main.py deal path, which skips
the answer-text filter, does not (see the counterexample). -/
theorem flashSelect_exclusive (correct : String) (cands sorted1 rem1 : List Cand)
    (dn : Nat) (hsort : sorted1.Perm (buildScored correct cands))
    (hrem : rem1.Perm (flashRemaining cands (phase1 sorted1 [] [correct] dn).2)) :
    (flashSelect correct sorted1 rem1 dn).Nodup ∧
    correct ∉ flashSelect correct sorted1 rem1 dn := by
  obtain ⟨h1, h2, h4⟩ := phase1_invariant sorted1 [] [correct] dn (by simp) (by simp)
  have hout : ∀ a ∈ (phase1 sorted1 [] [correct] dn).1, a ≠ correct := by
    intro a ha heq
    rcases h4 a ha with h | h
    · exact absurd h (List.not_mem_nil a)
    · exact h (by simp [heq])
  by_cases hlen : (phase1 sorted1 [] [correct] dn).1.length < dn
  · have hempty : flashRemaining cands (phase1 sorted1 [] [correct] dn).2 = [] := by
      rw [flashRemaining, List.filter_eq_nil_iff]
      intro c hc
      simp only [Bool.and_eq_true, decide_eq_true_eq, not_and]
      intro hnotin
      by_contra hne
      by_cases hcc : c.2 = correct
      · exact hnotin (hcc ▸ phase1_used_mono sorted1 [] [correct] dn correct (by simp))
      · have hmem : c ∈ buildScored correct cands := by
          rw [buildScored, List.mem_filter]
          exact ⟨hc, by simp [hne, hcc]⟩
        exact hnotin (phase1_exhaust sorted1 [] [correct] dn hlen c
          (hsort.mem_iff.mpr hmem))
    have hrem1 : rem1 = [] := List.Perm.eq_nil (hempty ▸ hrem)
    unfold flashSelect
    rw [hrem1]
    exact ⟨h1, fun hmem => hout correct hmem rfl⟩
  · unfold flashSelect
    rw [backfillLoop_of_full rem1 (phase1 sorted1 [] [correct] dn).1
      (phase1 sorted1 [] [correct] dn).2 dn (by omega)]
    exact ⟨h1, fun hmem => hout correct hmem rfl⟩

/-- Witness for the C4 amended theorem at a concrete corpus, with the
identity permutations for both shuffles. -/
theorem flashSelect_exclusive_witness :
    (flashSelect "4" (buildScored "4" [("a", "5")])
      (flashRemaining [("a", "5")] (phase1 (buildScored "4" [("a", "5")]) [] ["4"] 1).2)
      1).Nodup ∧
    "4" ∉ flashSelect "4" (buildScored "4" [("a", "5")])
      (flashRemaining [("a", "5")] (phase1 (buildScored "4" [("a", "5")]) [] ["4"] 1).2)
      1 :=
  flashSelect_exclusive "4" [("a", "5")] _ _ 1 (List.Perm.refl _) (List.Perm.refl _)

theorem orderedInsert_tie (a : Nat × ℝ) (l : List (Nat × ℝ))
    (hp : l.Pairwise (fun x y => x.2 = y.2 → x.1 < y.1))
    (ha : ∀ b ∈ l, a.2 = b.2 → a.1 < b.1) :
    (l.orderedInsert simRel a).Pairwise (fun x y => x.2 = y.2 → x.1 < y.1) := by
  induction l with
  | nil => simp
  | cons b l ih =>
      rw [List.orderedInsert]
      by_cases h : simRel a b
      · rw [if_pos h]
        exact List.Pairwise.cons ha hp
      · rw [if_neg h]
        rcases List.pairwise_cons.mp hp with ⟨hp1, hp2⟩
        refine List.Pairwise.cons ?_ (ih hp2 (fun x hx => ha x (List.mem_cons_of_mem _ hx)))
        intro x hx
        rcases (List.mem_orderedInsert simRel).mp hx with rfl | hx
        · intro heq
          exact absurd (show simRel x b from le_of_eq heq) h
        · exact hp1 x hx

theorem insertionSort_tie (l : List (Nat × ℝ))
    (hp : l.Pairwise (fun x y => x.2 = y.2 → x.1 < y.1)) :
    (List.insertionSort simRel l).Pairwise (fun x y => x.2 = y.2 → x.1 < y.1) := by
  induction l with
  | nil => simp
  | cons a l ih =>
      rw [List.insertionSort]
      rcases List.pairwise_cons.mp hp with ⟨hp1, hp2⟩
      exact orderedInsert_tie a _ (ih hp2)
        (fun b hb => hp1 b ((List.mem_insertionSort simRel).mp hb))

theorem simList_index_pairwise (corpus : List QRow) (query : String) :
    (simList corpus query).Pairwise (fun x y => x.1 < y.1) := by
  unfold simList
  rw [List.pairwise_map]
  exact List.pairwise_lt_range corpus.length

/-- C6: for every query, corpus, limit and threshold, the duplicate
detector output has at most limit entries, every reported similarity is at
least the threshold, the output is sorted by descending similarity, the
selected (index, score) pairs carry strictly increasing corpus indices
whenever scores are equal (stable ties follow corpus iteration order), and
the output is exactly the corpus resolution of those selected pairs. -/
theorem find_semantic_duplicates_ranked (corpus : List QRow) (query : String)
    (lim : Nat) (threshold : ℝ) :
    (find_semantic_duplicates corpus query lim threshold).length ≤ lim ∧
    List.Forall (fun m => threshold ≤ m.similarity)
      (find_semantic_duplicates corpus query lim threshold) ∧
    (find_semantic_duplicates corpus query lim threshold).Pairwise
      (fun m1 m2 => m2.similarity ≤ m1.similarity) ∧
    (fsdSelected corpus query lim threshold).Pairwise
      (fun p q' => p.2 = q'.2 → p.1 < q'.1) ∧
    find_semantic_duplicates corpus query lim threshold =
      (if corpus = [] then [] else (fsdSelected corpus query lim threshold).map
        (fun p => ⟨(corpus.getD p.1 default).id, (corpus.getD p.1 default).question,
                   (corpus.getD p.1 default).answer, p.2⟩)) := by
  have hsel_sorted : (fsdSelected corpus query lim threshold).Pairwise simRel := by
    unfold fsdSelected topMatches
    exact List.Pairwise.sublist ((List.filter_sublist _).trans (List.take_sublist _ _))
      (List.sorted_insertionSort simRel (simList corpus query))
  have hsel_tie : (fsdSelected corpus query lim threshold).Pairwise
      (fun p q' => p.2 = q'.2 → p.1 < q'.1) := by
    unfold fsdSelected topMatches
    exact List.Pairwise.sublist ((List.filter_sublist _).trans (List.take_sublist _ _))
      (insertionSort_tie _ (List.Pairwise.imp
        (fun h => fun _ => h) (simList_index_pairwise corpus query)))
  have hsel_th : ∀ p ∈ fsdSelected corpus query lim threshold, threshold ≤ p.2 := by
    intro p hp
    have := List.of_mem_filter hp
    simpa using this
  have hsel_len : (fsdSelected corpus query lim threshold).length ≤ lim := by
    calc (fsdSelected corpus query lim threshold).length
        ≤ (topMatches corpus query lim).length := List.length_filter_le _ _
      _ ≤ lim := by
          unfold topMatches
          rw [List.length_take]
          omega
  refine ⟨?_, ?_, ?_, hsel_tie, ?_⟩
  · unfold find_semantic_duplicates
    split
    · simp
    · rw [List.length_map]
      exact hsel_len
  · rw [List.forall_iff_forall_mem]
    intro m hm
    unfold find_semantic_duplicates at hm
    split at hm
    · exact absurd hm (List.not_mem_nil m)
    · rcases List.mem_map.mp hm with ⟨p, hp, rfl⟩
      exact hsel_th p hp
  · unfold find_semantic_duplicates
    split
    · simp
    · rw [List.pairwise_map]
      exact hsel_sorted.imp (fun h => h)
  · rfl

/-- C9: the cosine similarity computed for a corpus document is exactly
zero whenever the query TF-IDF vector or the document TF-IDF vector has
Euclidean norm zero (the guard of lines 465-467), and also whenever the
query shares no processed term with the document (zero dot product). -/
theorem cosSim_zero (docsP : List TokList) (d e : TokList) :
    ((magOf docsP d = 0 ∨ magOf docsP e = 0) → cosSim docsP d e = 0) ∧
    ((∀ t ∈ d, t ∉ e) → cosSim docsP d e = 0) := by
  constructor
  · intro h
    unfold cosSim
    rcases h with h | h
    · rw [if_neg]
      intro hpos
      rw [h] at hpos
      exact lt_irrefl 0 hpos.1
    · rw [if_neg]
      intro hpos
      rw [h] at hpos
      exact lt_irrefl 0 hpos.2
  · intro hdisj
    have hdot : dotOf docsP d e = 0 := by
      unfold dotOf sumOver
      apply List.sum_eq_zero
      intro x hx
      rcases List.mem_map.mp hx with ⟨t, _, rfl⟩
      by_cases htd : t ∈ d
      · have hte : t ∉ e := hdisj t htd
        have : (e.count t : ℝ) = 0 := by
          rw [List.count_eq_zero_of_not_mem hte]
          norm_num
        unfold tfidfW
        rw [this]
        ring
      · have : (d.count t : ℝ) = 0 := by
          rw [List.count_eq_zero_of_not_mem htd]
          norm_num
        unfold tfidfW
        rw [this]
        ring
    unfold cosSim
    split
    · rw [hdot, zero_div]
    · rfl

/-- Witness for the C9 theorem: a corpus of one empty processed document
against an empty processed query has zero norms, no shared terms and
similarity zero. -/
theorem cosSim_zero_witness : cosSim [[]] [] [] = 0 ∧ cosSim [[]] [] [] = 0 :=
  ⟨(cosSim_zero [[]] [] []).1
    (Or.inl (by simp [magOf, sumOver, allTerms])),
   (cosSim_zero [[]] [] []).2 (by simp)⟩

theorem mark_redeemed_mem_self (used : List (Bytes × Bytes)) (u tok : Bytes) :
    (u, tok) ∈ mark_redeemed used u tok := by
  unfold mark_redeemed
  by_cases h : (u, tok) ∈ used
  · rwa [if_pos h]
  · rw [if_neg h]
    simp

theorem check_answer_run (mac : Bytes → Bytes → Bytes) (secret : Bytes) (st : DBState)
    (u tok sub : Bytes) (now : Nat) (qid ans mid : Bytes)
    (hsub : sub ≠ []) (hmem : (u, tok) ∉ st.usedTokens)
    (hver : verify_signed_token mac secret tok u = (some qid, true))
    (hlook : lookupA st.questions qid = some (ans, mid)) :
    check_answer mac secret st u tok sub now =
      (.graded (decide (sub = ans)),
       { usedTokens := if decide (sub = ans) then mark_redeemed st.usedTokens u tok
                       else st.usedTokens,
         questions := st.questions,
         userStats := updateUserStats st.userStats
           (upsertModuleStat st.moduleStats (u, mid) (decide (sub = ans)) now)
           u (decide (sub = ans)) now,
         moduleStats := upsertModuleStat st.moduleStats (u, mid) (decide (sub = ans)) now }) := by
  have htok : tok ≠ [] := by
    rintro rfl
    rw [show verify_signed_token mac secret [] u = (none, false) from rfl] at hver
    exact absurd hver (by simp)
  unfold check_answer
  rw [if_neg (by simp [htok, hsub]), if_neg hmem]
  simp only [hver, hlook]

/-- C1: grading lifecycle of a (user, token) pair in the flashcardsite.py
check_answer handler.  First, a pair already present in used_tokens is
rejected as already used with the whole database state unchanged (so before
any statistics update).  Second, for a fresh pair with a valid token and an
existing question, the pair is recorded in used_tokens exactly when the
submitted answer equals the stored correct answer.  Third, after an
incorrect submission the same token grades again: a second request with the
same pair is not rejected and returns the grading outcome of its own
submission. -/
theorem check_answer_token_lifecycle (mac : Bytes → Bytes → Bytes) (secret : Bytes)
    (st : DBState) (u tok sub : Bytes) (now : Nat) :
    (tok ≠ [] → sub ≠ [] → (u, tok) ∈ st.usedTokens →
      check_answer mac secret st u tok sub now = (.alreadyUsed, st)) ∧
    (∀ qid ans mid, sub ≠ [] → (u, tok) ∉ st.usedTokens →
      verify_signed_token mac secret tok u = (some qid, true) →
      lookupA st.questions qid = some (ans, mid) →
      ((u, tok) ∈ (check_answer mac secret st u tok sub now).2.usedTokens ↔ sub = ans)) ∧
    (∀ qid ans mid sub2 now2, sub ≠ [] → sub2 ≠ [] → (u, tok) ∉ st.usedTokens →
      verify_signed_token mac secret tok u = (some qid, true) →
      lookupA st.questions qid = some (ans, mid) → sub ≠ ans →
      (check_answer mac secret (check_answer mac secret st u tok sub now).2
        u tok sub2 now2).1 = .graded (decide (sub2 = ans))) := by
  refine ⟨?_, ?_, ?_⟩
  · intro htok hsub hmem
    unfold check_answer
    rw [if_neg (by simp [htok, hsub]), if_pos hmem]
  · intro qid ans mid hsub hmem hver hlook
    rw [check_answer_run mac secret st u tok sub now qid ans mid hsub hmem hver hlook]
    by_cases hsa : sub = ans
    · simp [hsa, mark_redeemed_mem_self]
    · simp [hsa, hmem]
  · intro qid ans mid sub2 now2 hsub hsub2 hmem hver hlook hsa
    rw [check_answer_run mac secret st u tok sub now qid ans mid hsub hmem hver hlook]
    have hfalse : decide (sub = ans) = false := by simp [hsa]
    simp only [hfalse, Bool.false_eq_true, if_false]
    rw [check_answer_run mac secret
      { usedTokens := st.usedTokens, questions := st.questions,
        userStats := updateUserStats st.userStats
          (upsertModuleStat st.moduleStats (u, mid) false now) u false now,
        moduleStats := upsertModuleStat st.moduleStats (u, mid) false now }
      u tok sub2 now2 qid ans mid hsub2 hmem hver hlook]

/-- Witness for the C1 theorem: a concrete database with one question, a
concretely generated valid token, an already-used rejection, a correct
submission recording the pair, and an incorrect-then-retry grading. -/
theorem check_answer_token_lifecycle_witness :
    check_answer (fun _ _ => [97, 98]) [] ⟨[([117], [1])], [], [], []⟩ [117] [1] [53] 0
      = (.alreadyUsed, ⟨[([117], [1])], [], [], []⟩) ∧
    (([117], generate_signed_token (fun _ _ => [97, 98]) [] [113] [117] 7) ∈
      (check_answer (fun _ _ => [97, 98]) [] ⟨[], [([113], ([52], [109]))], [], []⟩ [117]
        (generate_signed_token (fun _ _ => [97, 98]) [] [113] [117] 7) [52]
        0).2.usedTokens ↔ ([52] : Bytes) = [52]) ∧
    (check_answer (fun _ _ => [97, 98]) []
      (check_answer (fun _ _ => [97, 98]) [] ⟨[], [([113], ([52], [109]))], [], []⟩ [117]
        (generate_signed_token (fun _ _ => [97, 98]) [] [113] [117] 7) [54] 0).2
      [117] (generate_signed_token (fun _ _ => [97, 98]) [] [113] [117] 7) [52] 1).1
      = .graded (decide (([52] : Bytes) = [52])) := by
  refine ⟨?_, ?_, ?_⟩
  · exact (check_answer_token_lifecycle (fun _ _ => [97, 98]) []
      ⟨[([117], [1])], [], [], []⟩ [117] [1] [53] 0).1 (by decide) (by decide) (by decide)
  · exact (check_answer_token_lifecycle (fun _ _ => [97, 98]) []
      ⟨[], [([113], ([52], [109]))], [], []⟩ [117]
      (generate_signed_token (fun _ _ => [97, 98]) [] [113] [117] 7) [52] 0).2.1
      [113] [52] [109] (by decide) (by simp) (by decide) (by decide)
  · exact (check_answer_token_lifecycle (fun _ _ => [97, 98]) []
      ⟨[], [([113], ([52], [109]))], [], []⟩ [117]
      (generate_signed_token (fun _ _ => [97, 98]) [] [113] [117] 7) [54] 0).2.2
      [113] [52] [109] [52] 1 (by decide) (by decide) (by simp) (by decide)
      (by decide) (by decide)
